import Mathlib

/-!
Shallow embedding of the `exact_avg` Vertica UDAF (src/exact_avg.cpp).

The aggregation state is the intermediate tuple the UDX declares in
`getIntermediateTypes`: a running NUMERIC sum (modelled as the exact integer
of scaled units — the host's big-decimal addition at the fixed sum shape is
exact by contract), a signed 64-bit row counter `cnt`, and the recorded input
shape `p_in`, `s_in`.  Errors raised through `vt_report_error` are modelled
as `Except.error` with one constructor per distinct error site.
-/

namespace ExactAvg

/-- Maximum precision Vertica allows for NUMERIC (`MAX_NUMERIC_PRECISION`
in src/exact_avg.cpp), used as an absolute ceiling. -/
def MAX_NUMERIC_PRECISION : Int := 1024

/-- The intermediate aggregation state declared by
`ExactAvgFactory::getIntermediateTypes`: `sum` (index 0), `cnt` (index 1),
`p_in` (index 2), `s_in` (index 3). -/
structure AggState where
  sum : Int
  cnt : Int
  p_in : Int
  s_in : Int
deriving DecidableEq, Repr

/-- Distinct error exits of the UDX, one constructor per
`vt_report_error` site reachable in the modelled paths. -/
inductive UdxError where
  /-- "exact_avg: invalid input NUMERIC precision %d" raised from
  `aggregate` (and the factory methods) when the declared precision is
  outside (0, MAX_NUMERIC_PRECISION]. -/
  | invalidInputShape
  /-- "internal error: invalid stored input scale %lld" in `terminate`. -/
  | corruptScale
  /-- "internal error: invalid stored input precision %lld" in `terminate`. -/
  | corruptPrecision
  /-- "internal error: negative row count %lld" in `terminate`. -/
  | negativeCount
  /-- "internal error: zero digit count for row count %lld" in `terminate`. -/
  | zeroDigitCount
  /-- "Cannot calculate the exact average for such huge numbers ..." in
  `terminate`. -/
  | precisionExceeded
deriving DecidableEq, Repr

/-- `ExactAvg::initAggregate`: sum = 0, cnt = 0, p_in = 0, s_in = 0. -/
def initAggregate : AggState :=
  { sum := 0, cnt := 0, p_in := 0, s_in := 0 }

/-- First part of `ExactAvg::aggregate`: on the first call (stored
precision still the 0 sentinel) read the input column's declared
NUMERIC(p, s), validate `0 < p ≤ MAX_NUMERIC_PRECISION`, and record it.
The input type is NUMERIC by `getPrototype`, so the `isNumeric` guard is
always passed and is not modelled. -/
def recordInputShape (st : AggState) (pCol sCol : Int) : Except UdxError AggState :=
  if st.p_in = 0 then
    if pCol ≤ 0 ∨ MAX_NUMERIC_PRECISION < pCol then
      Except.error UdxError.invalidInputShape
    else
      Except.ok { st with p_in := pCol, s_in := sCol }
  else
    Except.ok st

/-- Body of the row loop in `ExactAvg::aggregate`: a NULL input row is
skipped; a non-NULL row is added to the sum and counted. -/
def addRow (st : AggState) (value : Option Int) : AggState :=
  match value with
  | none => st
  | some v => { st with sum := st.sum + v, cnt := st.cnt + 1 }

/-- `ExactAvg::aggregate` restricted to a single input row: record the
input shape if unset (failing on an invalid declared precision), then
process the row. -/
def aggregate (st : AggState) (value : Option Int) (pCol sCol : Int) :
    Except UdxError AggState :=
  match recordInputShape st pCol sCol with
  | Except.error e => Except.error e
  | Except.ok st1 => Except.ok (addRow st1 value)

/-- `ExactAvg::combine` restricted to one other partial state: sums and
counts add, and the recorded input shape fields take the maximum seen
(`if (otherPIn > myPIn) myPIn = otherPIn;` and likewise for the scale). -/
def combine (a b : AggState) : AggState :=
  { sum := a.sum + b.sum
    cnt := a.cnt + b.cnt
    p_in := if b.p_in > a.p_in then b.p_in else a.p_in
    s_in := if b.s_in > a.s_in then b.s_in else a.s_in }

/-- The digit-count loop of `ExactAvg::terminate`:
`while (tmp > 0) { tmp /= 10; digitsN++; }` on a non-negative counter. -/
def digits10 (n : Nat) : Nat :=
  if h : n = 0 then 0 else digits10 (n / 10) + 1
decreasing_by exact Nat.div_lt_self (Nat.pos_of_ne_zero h) (by norm_num)

/-- `ExactAvg::terminate`, returning the value written to the result
writer together with the aggregation state as terminate leaves it (the
C++ takes `IntermediateAggs` by reference; every access to it in
`terminate` is a read through a const reference, so each branch of the
embedding hands the state back unchanged).  `Except.ok none` is the NULL
result; `Except.ok (some (n, d))` stands for the numeric result
`out.div(&sum, &cntNumeric)` with dividend `n` and divisor `d` (the
division primitive at the output shape is the host's black box). -/
def terminateWithState (st : AggState) :
    Except UdxError (Option (Int × Int)) × AggState :=
  if st.cnt = 0 then
    (Except.ok none, st)
  else if st.s_in < 0 then
    (Except.error UdxError.corruptScale, st)
  else if st.p_in ≤ 0 ∨ MAX_NUMERIC_PRECISION < st.p_in then
    (Except.error UdxError.corruptPrecision, st)
  else if st.cnt < 0 then
    (Except.error UdxError.negativeCount, st)
  else
    let digitsN : Int := (digits10 st.cnt.toNat : Int)
    if digitsN = 0 then
      (Except.error UdxError.zeroDigitCount, st)
    else
      let p_needed := st.p_in + digitsN
      if p_needed > MAX_NUMERIC_PRECISION then
        (Except.error UdxError.precisionExceeded, st)
      else
        (Except.ok (some (st.sum, st.cnt)), st)

/-- The result of `ExactAvg::terminate` (first component of
`terminateWithState`). -/
def terminate (st : AggState) : Except UdxError (Option (Int × Int)) :=
  (terminateWithState st).1

/-- `ExactAvgFactory::getReturnType` on the input column's declared
NUMERIC(p_in, s_in): validates the precision, then
p_out = min(1024, p_in + 5) and s_out = s_in + 5 clamped into
[0, p_out].  The argument-count and `isNumeric` guards always pass for a
NUMERIC input column and are not modelled. -/
def getReturnType (p_in s_in : Int) : Except UdxError (Int × Int) :=
  if p_in ≤ 0 ∨ MAX_NUMERIC_PRECISION < p_in then
    Except.error UdxError.invalidInputShape
  else
    let p_out0 := p_in + 5
    let p_out := if p_out0 > MAX_NUMERIC_PRECISION then MAX_NUMERIC_PRECISION else p_out0
    let s_out0 := s_in + 5
    let s_out1 := if s_out0 > p_out then p_out else s_out0
    let s_out := if s_out1 < 0 then 0 else s_out1
    Except.ok (p_out, s_out)

/-- `ExactAvgFactory::getIntermediateTypes` on the input column's declared
NUMERIC(p_in, s_in): validates the precision, then the sum shape is
p_sum = min(1024, p_in + 19) with 19 extra digits for the row count, and
s_sum = s_in clamped into [0, p_sum]. -/
def getIntermediateTypes (p_in s_in : Int) : Except UdxError (Int × Int) :=
  if p_in ≤ 0 ∨ MAX_NUMERIC_PRECISION < p_in then
    Except.error UdxError.invalidInputShape
  else
    let extra_digits_for_rows : Int := 19
    let p_sum0 := p_in + extra_digits_for_rows
    let p_sum := if p_sum0 > MAX_NUMERIC_PRECISION then MAX_NUMERIC_PRECISION else p_sum0
    let s_sum0 := s_in
    let s_sum1 := if s_sum0 > p_sum then p_sum else s_sum0
    let s_sum := if s_sum1 < 0 then 0 else s_sum1
    Except.ok (p_sum, s_sum)

/-- States reachable by the host driving the UDX protocol: a fresh state
from `initAggregate`, grown by successful `aggregate` calls, and merged by
`combine`.  The declared column scale handed to `aggregate` satisfies the
host's NUMERIC type invariant `0 ≤ s ≤ p` (spec §3: every Decimal's scale
lies in [0, p]); the precision is validated by the code itself. -/
inductive Reachable : AggState → Prop where
  | init : Reachable initAggregate
  | agg (st st' : AggState) (value : Option Int) (pCol sCol : Int)
      (hst : Reachable st) (hs0 : 0 ≤ sCol) (hsp : sCol ≤ pCol)
      (hok : aggregate st value pCol sCol = Except.ok st') :
      Reachable st'
  | comb (a b : AggState) (ha : Reachable a) (hb : Reachable b) :
      Reachable (combine a b)

/-! Helper lemmas about the digit-count loop. -/

/-- The loop counts at least one digit on a positive counter. -/
theorem digits10_ne_zero {n : Nat} (h : n ≠ 0) : digits10 n ≠ 0 := by
  unfold digits10
  simp [h]

/-- Any counter below `10 ^ k` needs at most `k` digits. -/
theorem digits10_le_of_lt_pow (k : Nat) :
    ∀ n : Nat, n < 10 ^ k → digits10 n ≤ k := by
  induction k with
  | zero =>
      intro n hn
      have hn0 : n = 0 := by omega
      subst hn0
      unfold digits10
      simp
  | succ k ih =>
      intro n hn
      by_cases h : n = 0
      · subst h
        unfold digits10
        simp
      · rw [digits10]
        simp only [h, dite_false]
        have hdiv : n / 10 < 10 ^ k := by
          have hmul : n < 10 ^ k * 10 := by
            have hpow : 10 ^ (k + 1) = 10 ^ k * 10 := pow_succ 10 k
            omega
          exact (Nat.div_lt_iff_lt_mul (by norm_num)).mpr hmul
        have := ih (n / 10) hdiv
        omega

/-! Invariant of reachable states, shared by several claim theorems. -/

/-- Every reachable state has a non-negative count, a non-negative recorded
scale, a recorded precision that is either the 0 sentinel or in
[1, MAX_NUMERIC_PRECISION], and a positive count forces a recorded
precision. -/
theorem reachable_invariant {st : AggState} (h : Reachable st) :
    0 ≤ st.cnt ∧ 0 ≤ st.s_in ∧
    (st.p_in = 0 ∨ (1 ≤ st.p_in ∧ st.p_in ≤ MAX_NUMERIC_PRECISION)) ∧
    (0 < st.cnt → 1 ≤ st.p_in) := by
  induction h with
  | init => simp [initAggregate]
  | agg st st' value pCol sCol hst hs0 hsp hok ih =>
      unfold aggregate recordInputShape at hok
      by_cases hp : st.p_in = 0
      · simp only [hp, if_true, reduceIte] at hok
        by_cases hbad : pCol ≤ 0 ∨ MAX_NUMERIC_PRECISION < pCol
        · simp [hbad] at hok
        · simp only [hbad, if_false, reduceIte, Except.ok.injEq] at hok
          subst hok
          push_neg at hbad
          cases value with
          | none =>
              simp only [addRow]
              refine ⟨ih.1, by simpa using hs0, Or.inr ⟨by omega, by omega⟩, ?_⟩
              intro _
              simpa using hbad.1
          | some v =>
              simp only [addRow]
              exact ⟨by have := ih.1; omega, by simpa using hs0,
                Or.inr ⟨by omega, by omega⟩, fun _ => by omega⟩
      · simp only [hp, if_false, reduceIte, Except.ok.injEq] at hok
        subst hok
        obtain ⟨h1, h2, h3, h4⟩ := ih
        have hp' : 1 ≤ st.p_in ∧ st.p_in ≤ MAX_NUMERIC_PRECISION := by
          rcases h3 with h3 | h3
          · exact absurd h3 hp
          · exact h3
        cases value with
        | none => exact ⟨h1, h2, Or.inr hp', fun _ => hp'.1⟩
        | some v =>
            simp only [addRow]
            exact ⟨by omega, h2, Or.inr hp', fun _ => hp'.1⟩
  | comb a b ha hb iha ihb =>
      obtain ⟨a1, a2, a3, a4⟩ := iha
      obtain ⟨b1, b2, b3, b4⟩ := ihb
      simp only [combine]
      refine ⟨by omega, by split_ifs <;> omega, ?_, ?_⟩
      · split_ifs with hgt
        · rcases b3 with h | h
          · exact Or.inl h
          · exact Or.inr h
        · rcases a3 with h | h
          · exact Or.inl h
          · exact Or.inr h
      · intro hc
        have : 0 < a.cnt ∨ 0 < b.cnt := by omega
        rcases this with h | h
        · have := a4 h
          split_ifs <;> omega
        · have := b4 h
          split_ifs <;> omega

/-- Characterization of `terminate` on a state with a positive count, a
non-negative recorded scale and an in-range recorded precision: all the
internal-consistency branches pass and only the overflow test decides the
outcome. -/
theorem terminate_spec_pos {st : AggState} (hc : 1 ≤ st.cnt) (hs : 0 ≤ st.s_in)
    (hp1 : 1 ≤ st.p_in) (hp2 : st.p_in ≤ MAX_NUMERIC_PRECISION) :
    terminate st =
      if MAX_NUMERIC_PRECISION < st.p_in + (digits10 st.cnt.toNat : Int) then
        Except.error UdxError.precisionExceeded
      else
        Except.ok (some (st.sum, st.cnt)) := by
  have hd : digits10 st.cnt.toNat ≠ 0 := digits10_ne_zero (by omega)
  have hd' : ¬ ((digits10 st.cnt.toNat : Int) = 0) := by exact_mod_cast hd
  simp only [terminate, terminateWithState]
  rw [if_neg (by omega), if_neg (by omega), if_neg (by omega), if_neg (by omega),
    if_neg hd']
  split_ifs with hover <;> rfl

/-- C5: for every state, `terminate` returns the SQL NULL result if and
only if the count is zero: `count == 0` is the only null-producing path,
and every state with `count == 0` yields null regardless of the stored
input precision. -/
theorem terminate_null_iff_zero_count (st : AggState) :
    terminate st = Except.ok none ↔ st.cnt = 0 := by
  simp only [terminate, terminateWithState]
  split_ifs with h1 h2 h3 h4 h5 h6 <;> simp_all

/-- C6: `combine` is associative and commutative on aggregation states
(sums add, counts add, the recorded input shape combines by maximum), so
`terminate` of any merge tree over the same partial states agrees. -/
theorem combine_assoc_comm (a b c : AggState) :
    combine a (combine b c) = combine (combine a b) c ∧
    combine a b = combine b a ∧
    terminate (combine a (combine b c)) = terminate (combine (combine a b) c) ∧
    terminate (combine a b) = terminate (combine b a) := by
  have h1 : combine a (combine b c) = combine (combine a b) c := by
    obtain ⟨s1, c1, p1, q1⟩ := a
    obtain ⟨s2, c2, p2, q2⟩ := b
    obtain ⟨s3, c3, p3, q3⟩ := c
    simp only [combine, AggState.mk.injEq]
    refine ⟨by omega, by omega, by split_ifs <;> omega, by split_ifs <;> omega⟩
  have h2 : combine a b = combine b a := by
    obtain ⟨s1, c1, p1, q1⟩ := a
    obtain ⟨s2, c2, p2, q2⟩ := b
    simp only [combine, AggState.mk.injEq]
    refine ⟨by omega, by omega, by split_ifs <;> omega, by split_ifs <;> omega⟩
  exact ⟨h1, h2, by rw [h1], by rw [h2]⟩

/-- C7: an `aggregate` call on a NULL input row changes neither the sum
nor the count (SQL-style null exclusion). -/
theorem aggregate_null_row_noop (st : AggState) (pCol sCol : Int)
    (st' : AggState) (h : aggregate st none pCol sCol = Except.ok st') :
    st'.sum = st.sum ∧ st'.cnt = st.cnt := by
  unfold aggregate recordInputShape at h
  by_cases hp : st.p_in = 0
  · by_cases hbad : pCol ≤ 0 ∨ MAX_NUMERIC_PRECISION < pCol
    · simp [hp, hbad] at h
    · simp only [hp, if_true, hbad, if_false, reduceIte, Except.ok.injEq] at h
      subst h
      simp [addRow]
  · simp only [hp, if_false, reduceIte, Except.ok.injEq] at h
    subst h
    simp [addRow]

/-- Witness for C7 at a concrete state: a NULL row on a fresh state (it
records the declared shape) leaves sum and count unchanged. -/
theorem aggregate_null_row_noop_witness :
    aggregate initAggregate none 10 2 =
      Except.ok { sum := 0, cnt := 0, p_in := 10, s_in := 2 } ∧
    (({ sum := 0, cnt := 0, p_in := 10, s_in := 2 } : AggState).sum =
        initAggregate.sum ∧
      ({ sum := 0, cnt := 0, p_in := 10, s_in := 2 } : AggState).cnt =
        initAggregate.cnt) :=
  ⟨by rfl, aggregate_null_row_noop initAggregate 10 2 _ (by rfl)⟩

/-- C8: `terminate` never mutates the aggregation state: every branch —
the NULL return, each internal error, the overflow error and the
division — leaves sum, count and the recorded input shape unchanged. -/
theorem terminate_preserves_state (st : AggState) :
    (terminateWithState st).2 = st := by
  simp only [terminateWithState]
  split_ifs <;> rfl

/-- C10: on a freshly initialized state (count 0, precision still the 0
sentinel) `terminate` returns NULL and raises no error: the count check
comes before the stored-precision validity check. -/
theorem terminate_fresh_state_null :
    terminate initAggregate = Except.ok none ∧
    ∀ e : UdxError, terminate initAggregate ≠ Except.error e := by
  have h : terminate initAggregate = Except.ok none := by rfl
  refine ⟨h, ?_⟩
  intro e hcon
  rw [h] at hcon
  exact Except.noConfusion hcon

/-- C2: for every valid input shape, the intermediate sum shape is
p_sum = min(1024, p_in + 19) and s_sum = clamp(s_in, 0, p_sum), and the
guard-digit constant 19 is at least the decimal digit-length of the
largest value of the 64-bit row counter. -/
theorem getIntermediateTypes_shape (p_in s_in : Int)
    (hp1 : 1 ≤ p_in) (hp2 : p_in ≤ 1024) (hs1 : 0 ≤ s_in) (hs2 : s_in ≤ p_in) :
    getIntermediateTypes p_in s_in =
      Except.ok (min 1024 (p_in + 19), max 0 (min s_in (min 1024 (p_in + 19)))) ∧
    digits10 (2 ^ 63 - 1) ≤ 19 := by
  constructor
  · simp only [getIntermediateTypes, MAX_NUMERIC_PRECISION]
    rw [if_neg (by omega)]
    simp only [Except.ok.injEq, Prod.mk.injEq]
    constructor <;> split_ifs <;> omega
  · exact digits10_le_of_lt_pow 19 _ (by norm_num)

/-- Witness for C2 at the concrete input shape NUMERIC(10, 2). -/
theorem getIntermediateTypes_shape_witness :
    (1 ≤ (10 : Int) ∧ (10 : Int) ≤ 1024 ∧ 0 ≤ (2 : Int) ∧ (2 : Int) ≤ 10) ∧
    (getIntermediateTypes 10 2 =
        Except.ok (min 1024 (10 + 19), max 0 (min 2 (min 1024 (10 + 19)))) ∧
      digits10 (2 ^ 63 - 1) ≤ 19) :=
  ⟨by norm_num,
    getIntermediateTypes_shape 10 2 (by norm_num) (by norm_num) (by norm_num)
      (by norm_num)⟩

/-- C3: for every valid input shape, the output shape is
p_out = min(1024, p_in + 5) and s_out = min(p_out, s_in + 5). -/
theorem getReturnType_shape (p_in s_in : Int)
    (hp1 : 1 ≤ p_in) (hp2 : p_in ≤ 1024) (hs1 : 0 ≤ s_in) (hs2 : s_in ≤ p_in) :
    getReturnType p_in s_in =
      Except.ok (min 1024 (p_in + 5), min (min 1024 (p_in + 5)) (s_in + 5)) := by
  simp only [getReturnType, MAX_NUMERIC_PRECISION]
  rw [if_neg (by omega)]
  simp only [Except.ok.injEq, Prod.mk.injEq]
  constructor <;> split_ifs <;> omega

/-- Witness for C3 at the concrete input shape NUMERIC(10, 2). -/
theorem getReturnType_shape_witness :
    (1 ≤ (10 : Int) ∧ (10 : Int) ≤ 1024 ∧ 0 ≤ (2 : Int) ∧ (2 : Int) ≤ 10) ∧
    getReturnType 10 2 =
      Except.ok (min 1024 (10 + 5), min (min 1024 (10 + 5)) (2 + 5)) :=
  ⟨by norm_num,
    getReturnType_shape 10 2 (by norm_num) (by norm_num) (by norm_num)
      (by norm_num)⟩

/-- C4 counterexample: the planner accepts declared shapes whose scale
violates the precondition s_in ∈ [0, p_in].  At NUMERIC(10, -1) the
return-type planner succeeds (clamping the scale), and at NUMERIC(10, 11)
the intermediate-type planner succeeds; neither fails with the
invalid-input-shape error the claim requires. -/
theorem planner_scale_not_validated_cex :
    getReturnType 10 (-1) = Except.ok (15, 4) ∧
    getReturnType 10 (-1) ≠ Except.error UdxError.invalidInputShape ∧
    getIntermediateTypes 10 11 = Except.ok (29, 11) ∧
    getIntermediateTypes 10 11 ≠ Except.error UdxError.invalidInputShape := by
  have h1 : getReturnType 10 (-1) = Except.ok (15, 4) := by rfl
  have h2 : getIntermediateTypes 10 11 = Except.ok (29, 11) := by rfl
  refine ⟨h1, ?_, h2, ?_⟩
  · rw [h1]
    exact fun hcon => Except.noConfusion hcon
  · rw [h2]
    exact fun hcon => Except.noConfusion hcon

/-- C4 (amended): both planner entry points fail with the
invalid-input-shape error exactly when the declared precision is outside
[1, 1024]; the declared scale is never validated — any s_in, even outside
[0, p_in], is accepted and only clamped in the computed shapes. -/
theorem planner_rejects_iff_bad_precision (p_in s_in : Int) :
    (getReturnType p_in s_in = Except.error UdxError.invalidInputShape ↔
      (p_in ≤ 0 ∨ 1024 < p_in)) ∧
    (getIntermediateTypes p_in s_in = Except.error UdxError.invalidInputShape ↔
      (p_in ≤ 0 ∨ 1024 < p_in)) ∧
    ((∃ e, getReturnType p_in s_in = Except.error e) ↔
      (p_in ≤ 0 ∨ 1024 < p_in)) ∧
    ((∃ e, getIntermediateTypes p_in s_in = Except.error e) ↔
      (p_in ≤ 0 ∨ 1024 < p_in)) := by
  simp only [getReturnType, getIntermediateTypes, MAX_NUMERIC_PRECISION]
  by_cases h : p_in ≤ 0 ∨ (1024 : Int) < p_in <;> simp [h]

/-- C1: on every reachable (merged) state with count ≥ 1 and stored input
precision in [1, 1024], `terminate` raises the precision-exceeded error
if and only if p_in + digits10(count) > 1024; and whenever
p_in + digits10(count) > 1024 it never returns a numeric (or NULL)
result. -/
theorem terminate_precision_exceeded_iff (st : AggState) (h : Reachable st)
    (hc : 1 ≤ st.cnt) (hp1 : 1 ≤ st.p_in) (hp2 : st.p_in ≤ 1024) :
    (terminate st = Except.error UdxError.precisionExceeded ↔
      1024 < st.p_in + (digits10 st.cnt.toNat : Int)) ∧
    (1024 < st.p_in + (digits10 st.cnt.toNat : Int) →
      ∀ r : Option (Int × Int), terminate st ≠ Except.ok r) := by
  obtain ⟨-, hs, -, -⟩ := reachable_invariant h
  have hmax : MAX_NUMERIC_PRECISION = (1024 : Int) := rfl
  rw [terminate_spec_pos hc hs hp1 (by rw [hmax]; exact hp2), hmax]
  constructor
  · split_ifs with hover <;> simp [hover]
  · intro hover r
    rw [if_pos hover]
    exact fun hcon => Except.noConfusion hcon

/-- Witness for C1 at a concrete reachable state: one row of a
NUMERIC(1024, 0) column gives count 1, p_needed = 1025 > 1024, so the
overflow branch fires. -/
theorem terminate_precision_exceeded_iff_witness :
    (Reachable ⟨1, 1, 1024, 0⟩ ∧ 1 ≤ (⟨1, 1, 1024, 0⟩ : AggState).cnt ∧
      1 ≤ (⟨1, 1, 1024, 0⟩ : AggState).p_in ∧
      (⟨1, 1, 1024, 0⟩ : AggState).p_in ≤ 1024) ∧
    ((terminate ⟨1, 1, 1024, 0⟩ = Except.error UdxError.precisionExceeded ↔
        1024 < (⟨1, 1, 1024, 0⟩ : AggState).p_in +
          (digits10 (⟨1, 1, 1024, 0⟩ : AggState).cnt.toNat : Int)) ∧
      (1024 < (⟨1, 1, 1024, 0⟩ : AggState).p_in +
          (digits10 (⟨1, 1, 1024, 0⟩ : AggState).cnt.toNat : Int) →
        ∀ r : Option (Int × Int),
          terminate ⟨1, 1, 1024, 0⟩ ≠ Except.ok r)) := by
  have hr : Reachable ⟨1, 1, 1024, 0⟩ :=
    Reachable.agg initAggregate ⟨1, 1, 1024, 0⟩ (some 1) 1024 0 Reachable.init
      (by norm_num) (by norm_num) (by rfl)
  exact ⟨⟨hr, by norm_num, by norm_num, by norm_num⟩,
    terminate_precision_exceeded_iff _ hr (by norm_num) (by norm_num)
      (by norm_num)⟩

/-- C9: in every reachable state the stored input precision is 0 (the
unset sentinel) or in [1, 1024]; a positive count forces a recorded
precision; and consequently `terminate` never takes the corrupt-precision
branch on a reachable state with positive count. -/
theorem reachable_precision_wellformed (st : AggState) (h : Reachable st) :
    (st.p_in = 0 ∨ (1 ≤ st.p_in ∧ st.p_in ≤ MAX_NUMERIC_PRECISION)) ∧
    (0 < st.cnt → 1 ≤ st.p_in) ∧
    (0 < st.cnt → terminate st ≠ Except.error UdxError.corruptPrecision) := by
  obtain ⟨h1, h2, h3, h4⟩ := reachable_invariant h
  refine ⟨h3, h4, ?_⟩
  intro hc
  have hp1 : 1 ≤ st.p_in := h4 hc
  have hp2 : st.p_in ≤ MAX_NUMERIC_PRECISION := by
    rcases h3 with h | h
    · omega
    · exact h.2
  rw [terminate_spec_pos (by omega) h2 hp1 hp2]
  split_ifs <;> simp

/-- Witness for C9 at a concrete reachable state with one accumulated
row of a NUMERIC(10, 2) column. -/
theorem reachable_precision_wellformed_witness :
    Reachable ⟨5, 1, 10, 2⟩ ∧
    (((⟨5, 1, 10, 2⟩ : AggState).p_in = 0 ∨
        (1 ≤ (⟨5, 1, 10, 2⟩ : AggState).p_in ∧
          (⟨5, 1, 10, 2⟩ : AggState).p_in ≤ MAX_NUMERIC_PRECISION)) ∧
      (0 < (⟨5, 1, 10, 2⟩ : AggState).cnt → 1 ≤ (⟨5, 1, 10, 2⟩ : AggState).p_in) ∧
      (0 < (⟨5, 1, 10, 2⟩ : AggState).cnt →
        terminate ⟨5, 1, 10, 2⟩ ≠ Except.error UdxError.corruptPrecision)) := by
  have hr : Reachable ⟨5, 1, 10, 2⟩ :=
    Reachable.agg initAggregate ⟨5, 1, 10, 2⟩ (some 5) 10 2 Reachable.init
      (by norm_num) (by norm_num) (by rfl)
  exact ⟨hr, reachable_precision_wellformed _ hr⟩

end ExactAvg
